import Mathlib

/-!
Shallow embedding of the Genx blockchain core (crates `core` and `consensus`):
ledger state transition (`src/core/src/state.rs`), chain continuity
(`src/core/src/chain.rs`), block/transaction validation
(`src/core/src/block.rs`, `src/core/src/transaction.rs`), PoS leader election
and reward halving (`src/consensus/src/pos.rs`, `src/consensus/src/lib.rs`),
validator-set derivation (`src/consensus/src/validator.rs`) and checkpoint
finality (`src/consensus/src/finality.rs`).

Machine integers (`u64`) are modelled as `Nat`, reduced modulo `2 ^ 64`
exactly where the Rust release-mode arithmetic wraps.  SHA-256 hashing
(`core::calculate_hash`) is modelled by an abstract hash environment: the
claims proved here do not depend on the concrete hash function, only on
hash values being compared for equality.  `Hash` (`[u8; 32]`) is modelled
as `Nat`, with the all-zero hash `[0u8; 32]` modelled as `0`.
-/

namespace Genx

/-- Modulus of 64-bit machine arithmetic. -/
def U64 : Nat := 2 ^ 64

/-- Hash values (`[u8; 32]`, `core::Hash`) modelled abstractly. -/
abbrev Hash := Nat

/-- Pointwise map update, modelling `HashMap` insertion / `entry` writes
(`fun` maps with a default stand in for `HashMap` with `unwrap_or` reads). -/
def upd {α β : Type} [DecidableEq α] (f : α → β) (k : α) (v : β) : α → β :=
  fun x => if x = k then v else f x

/-- Error kinds of `core::BlockchainError`.  The `format!` message payloads
carry no semantic content and are elided. -/
inductive BlockchainError where
  | InvalidBlock
  | InvalidTransaction
  | StateError
  deriving DecidableEq, Repr

/-- Error kinds of `consensus::ConsensusError` (payloads elided). -/
inductive ConsensusError where
  | BlockchainErr (e : BlockchainError)
  | ValidatorError
  | Timeout
  | InsufficientStake
  deriving DecidableEq, Repr

/-- `core::transaction::Transaction`.  Byte vectors `Vec<u8>` are `List Nat`. -/
structure Transaction where
  id : Hash
  timestamp : Nat
  sender : String
  recipient : String
  amount : Nat
  fee : Nat
  data : Option (List Nat)
  signature : Option (List Nat)
  deriving DecidableEq, Repr

/-- `core::block::BlockHeader`. -/
structure BlockHeader where
  version : Nat
  height : Nat
  timestamp : Nat
  prev_hash : Hash
  merkle_root : Hash
  validator : String
  signature : Option (List Nat)
  deriving DecidableEq, Repr

/-- `core::block::Block`. -/
structure Block where
  header : BlockHeader
  transactions : List Transaction
  deriving DecidableEq, Repr

/-- Abstract model of `core::calculate_hash` (SHA-256 over a JSON
serialization): one arbitrary total function per serialized type. -/
structure HashEnv where
  hashHeader : BlockHeader → Hash
  hashTxs : List Transaction → Hash
  hashTx : Transaction → Hash

/-- `Transaction::calculate_hash`: hash of the transaction with its `id`
field zeroed and its `signature` excluded (set to `None`), as in the source. -/
def Transaction.content_hash (env : HashEnv) (tx : Transaction) : Hash :=
  env.hashTx { tx with id := 0, signature := none }

/-- `Transaction::validate`: `amount > 0`, and the stored `id` equals the
recomputed content hash.  (Signature verification is a stub in the source.) -/
def Transaction.validate (env : HashEnv) (tx : Transaction) : Except BlockchainError Unit :=
  if tx.amount = 0 then .error .InvalidTransaction
  else if tx.content_hash env ≠ tx.id then .error .InvalidTransaction
  else .ok ()

/-- `Block::calculate_merkle_root`: the all-zero hash for an empty
transaction list, otherwise one hash over the whole list. -/
def Block.calculate_merkle_root (env : HashEnv) (txs : List Transaction) : Hash :=
  if txs = [] then 0 else env.hashTxs txs

/-- Sequential validation of a transaction list, propagating the first error
(the loop body of `Block::validate`). -/
def validate_txs (env : HashEnv) : List Transaction → Except BlockchainError Unit
  | [] => .ok ()
  | t :: ts =>
    match t.validate env with
    | .error e => .error e
    | .ok _ => validate_txs env ts

/-- `Block::validate`: recomputed merkle root must equal the declared root,
then every transaction must validate. -/
def Block.validate (env : HashEnv) (b : Block) : Except BlockchainError Unit :=
  if Block.calculate_merkle_root env b.transactions ≠ b.header.merkle_root then
    .error .InvalidBlock
  else validate_txs env b.transactions

/-- `core::state::State`: balances and stakes are total maps with default 0
(`HashMap` with `unwrap_or(&0)` reads); contract state maps to an optional
byte payload. -/
structure State where
  balances : String → Nat
  validator_stakes : String → Nat
  contract_states : String → Option (List Nat)
  total_supply : Nat

/-- `State::new`. -/
def State.new : State :=
  { balances := fun _ => 0
    validator_stakes := fun _ => 0
    contract_states := fun _ => none
    total_supply := 0 }

/-- `State::get_balance`. -/
def State.get_balance (s : State) (addr : String) : Nat := s.balances addr

/-- `State::apply_transaction`.  Coinbase transactions mint unconditionally;
ordinary transactions check `sender_balance < tx.amount + tx.fee` where the
sum is evaluated in wrapping 64-bit arithmetic (Rust release build), then
debit the wrapped sum and credit the recipient.  A failed check returns
before any mutation. -/
def State.apply_transaction (s : State) (tx : Transaction) : Except BlockchainError State :=
  if tx.sender = "COINBASE" then
    .ok { s with
      balances := upd s.balances tx.recipient ((s.balances tx.recipient + tx.amount) % U64)
      total_supply := (s.total_supply + tx.amount) % U64 }
  else
    let sender_balance := s.get_balance tx.sender
    if sender_balance < (tx.amount + tx.fee) % U64 then
      .error .InvalidTransaction
    else
      -- the guard just established rules out underflow in the debit
      let balances1 := upd s.balances tx.sender (sender_balance - (tx.amount + tx.fee) % U64)
      let balances2 := upd balances1 tx.recipient ((balances1 tx.recipient + tx.amount) % U64)
      let contracts1 :=
        match tx.data with
        | some d => if d = [] then s.contract_states else upd s.contract_states tx.recipient (some d)
        | none => s.contract_states
      .ok { s with balances := balances2, contract_states := contracts1 }

/-- Loop body of `State::apply_block`: transactions are applied one by one,
mutating the state in place; on the first failing transaction the error is
returned while the mutations of the earlier transactions remain. -/
def State.apply_txs (s : State) : List Transaction → Except BlockchainError Unit × State
  | [] => (.ok (), s)
  | t :: ts =>
    match s.apply_transaction t with
    | .error e => (.error e, s)
    | .ok s1 => State.apply_txs s1 ts

/-- `State::apply_block`. -/
def State.apply_block (s : State) (b : Block) : Except BlockchainError Unit × State :=
  s.apply_txs b.transactions

/-- `core::chain::Blockchain`: height-indexed blocks, the shared ledger
state, and the cached tip pointer. -/
structure Blockchain where
  blocks : Nat → Option Block
  state : State
  latest_hash : Hash
  latest_height : Nat

/-- `Blockchain::add_block`: structural validation, height continuity,
`prev_hash` continuity, then in-place state application and tip update.
The returned chain is the mutated `&mut self`: on a state-application error
the partially mutated ledger state remains (as in the source, where the
shared `State` behind the mutex has already been written). -/
def Blockchain.add_block (env : HashEnv) (c : Blockchain) (b : Block) :
    Except BlockchainError Unit × Blockchain :=
  match b.validate env with
  | .error e => (.error e, c)
  | .ok _ =>
    if b.header.height ≠ c.latest_height + 1 then (.error .InvalidBlock, c)
    else if b.header.prev_hash ≠ c.latest_hash then (.error .InvalidBlock, c)
    else
      match c.state.apply_block b with
      | (.error e, s1) => (.error e, { c with state := s1 })
      | (.ok _, s1) =>
        (.ok (), { c with
          state := s1
          blocks := upd c.blocks b.header.height (some b)
          latest_hash := env.hashHeader b.header
          latest_height := b.header.height })

/-- `consensus::ConsensusParams`.  `finality_threshold` and
`slashing_percentage` are `f64` in the source; they are modelled as `ℚ`.
No code path settled here reads either field (see `try_finalize`). -/
structure ConsensusParams where
  min_stake : Nat
  block_time : Nat
  validator_set_size : Nat
  checkpoint_interval : Nat
  finality_threshold : ℚ
  slashing_percentage : ℚ

/-- Default `ConsensusParams` (`impl Default`). -/
def ConsensusParams.default : ConsensusParams :=
  { min_stake := 1000 * 100000000
    block_time := 5
    validator_set_size := 21
    checkpoint_interval := 100
    finality_threshold := 67 / 100
    slashing_percentage := 10 / 100 }

/-- `consensus::validator::Validator`. -/
structure Validator where
  address : String
  stake : Nat
  last_block_produced : Nat
  deriving DecidableEq, Repr

/-- `consensus::validator::ValidatorManager`. -/
structure ValidatorManager where
  validators : List Validator
  min_stake : Nat
  max_validators : Nat

/-- Stable insertion of a validator into a list sorted by descending stake:
the element is placed before the first entry whose stake it meets or exceeds,
hence before all equal-stake entries already present. -/
def insert_desc (v : Validator) : List Validator → List Validator
  | [] => [v]
  | w :: ws => if w.stake ≤ v.stake then v :: w :: ws else w :: insert_desc v ws

/-- Stable sort by descending stake.  Rust `sort_by(|a, b| b.stake.cmp(&a.stake))`
is a stable sort by the same key; a stable sort's output is uniquely
determined by the key and the input order, so this insertion sort computes
the same list. -/
def sort_by_stake_desc : List Validator → List Validator
  | [] => []
  | v :: vs => insert_desc v (sort_by_stake_desc vs)

/-- `ValidatorManager::get_active_validators`: sort by descending stake,
keep stake at or above `min_stake`, truncate to `max_validators`. -/
def ValidatorManager.get_active_validators (m : ValidatorManager) : List Validator :=
  ((sort_by_stake_desc m.validators).filter (fun v => m.min_stake ≤ v.stake)).take m.max_validators

/-- `consensus::finality::Checkpoint` (`votes` is a `HashSet<String>`). -/
structure Checkpoint where
  height : Nat
  block_hash : Hash
  votes : Finset String
  finalized : Bool
  deriving DecidableEq

/-- `consensus::finality::FinalityManager`. -/
structure FinalityManager where
  params : ConsensusParams
  checkpoints : Nat → Option Checkpoint
  latest_finalized_height : Nat

/-- `FinalityManager::new`. -/
def FinalityManager.new (params : ConsensusParams) : FinalityManager :=
  { params := params, checkpoints := fun _ => none, latest_finalized_height := 0 }

/-- `FinalityManager::initialize_with_genesis`: installs a finalized genesis
checkpoint carrying one synthetic vote and resets the latest finalized
height to 0. -/
def FinalityManager.init_with_genesis (env : HashEnv) (fm : FinalityManager)
    (genesis : Block) : Except BlockchainError Unit × FinalityManager :=
  let h := env.hashHeader genesis.header
  (.ok (), { fm with
    checkpoints := upd fm.checkpoints 0 (some ⟨0, h, {"Genesis"}, true⟩)
    latest_finalized_height := 0 })

/-- `FinalityManager::try_finalize_checkpoint`.  The source computes
`total_stake = 0` and `threshold_stake = 0` as dead locals and finalizes on
the fixed raw vote count `votes.len() >= 2`; `params.finality_threshold` is
never consulted. -/
def FinalityManager.try_finalize (fm : FinalityManager) (height : Nat) :
    Except BlockchainError Bool × FinalityManager :=
  match fm.checkpoints height with
  | none => (.ok false, fm)
  | some cp =>
    if cp.finalized then (.ok true, fm)
    else if 2 ≤ cp.votes.card then
      (.ok true, { fm with
        checkpoints := upd fm.checkpoints height (some { cp with finalized := true })
        latest_finalized_height :=
          if fm.latest_finalized_height < height then height else fm.latest_finalized_height })
    else (.ok false, fm)

/-- `FinalityManager::add_checkpoint_vote`: height must be a multiple of
`checkpoint_interval`; the checkpoint is created on first vote (bound to the
voted hash, via `entry().or_insert_with`); a vote for a different hash than
the bound one errors before any mutation; otherwise the voter is recorded
and finalization is attempted. -/
def FinalityManager.add_checkpoint_vote (fm : FinalityManager) (height : Nat)
    (block_hash : Hash) (validator : Validator) :
    Except BlockchainError Bool × FinalityManager :=
  if height % fm.params.checkpoint_interval ≠ 0 then (.error .StateError, fm)
  else
    match fm.checkpoints height with
    | some cp =>
      if cp.block_hash ≠ block_hash then (.error .StateError, fm)
      else
        let cp1 := { cp with votes := insert validator.address cp.votes }
        let fm1 := { fm with checkpoints := upd fm.checkpoints height (some cp1) }
        fm1.try_finalize height
    | none =>
      let cp1 : Checkpoint := ⟨height, block_hash, {validator.address}, false⟩
      let fm1 := { fm with checkpoints := upd fm.checkpoints height (some cp1) }
      fm1.try_finalize height

/-- `FinalityManager::is_finalized`. -/
def FinalityManager.is_finalized (fm : FinalityManager) (height : Nat) : Bool :=
  height ≤ fm.latest_finalized_height

/-- `FinalityManager::create_checkpoint`: unconditionally inserts a fresh,
unfinalized checkpoint with an empty vote set at the given height,
overwriting any existing checkpoint there. -/
def FinalityManager.create_checkpoint (fm : FinalityManager) (height : Nat)
    (block_hash : Hash) : Except BlockchainError Unit × FinalityManager :=
  if height % fm.params.checkpoint_interval ≠ 0 then (.error .StateError, fm)
  else (.ok (), { fm with
    checkpoints := upd fm.checkpoints height (some ⟨height, block_hash, ∅, false⟩) })

/-- Little-endian byte expansion of a `u64` height padded to a 32-byte seed
array, as built in `PoSConsensus::select_validator`. -/
def height_seed (h : Nat) : List Nat :=
  ((List.range 8).map fun i => h / 256 ^ i % 256) ++ List.replicate 24 0

/-- The constant all-zero 32-byte seed `[0u8; 32]`. -/
def zero_seed : List Nat := List.replicate 32 0

/-- Wrapping `u64` sum of the active validators' stakes
(`iter().map(|v| v.stake).sum()`). -/
def sum_stakes (vs : List Validator) : Nat :=
  vs.foldl (fun a v => (a + v.stake) % U64) 0

/-- Cumulative-stake walk of the weighted selection loop: return the first
validator whose running stake total exceeds the selection point, falling
back to the first active validator. -/
def pick_validator (point : Nat) (fallback : Validator) :
    List Validator → Nat → Validator
  | [], _ => fallback
  | v :: vs, cum =>
    let cum1 := (cum + v.stake) % U64
    if point < cum1 then v else pick_validator point fallback vs cum1

/-- Per-validator metrics (`pos::ValidatorMetrics`); `uptime` is `f64` in
the source, modelled as `ℚ`.  No selection path reads these fields. -/
structure ValidatorMetrics where
  blocks_produced : Nat
  blocks_missed : Nat
  uptime : ℚ
  last_seen : Nat

/-- `consensus::pos::PoSConsensus` (the `epoch_start : Instant` wall-clock
field is outside the model; no claim depends on it). -/
structure PoSConsensus where
  params : ConsensusParams
  active_validators : List Validator
  validator_metrics : String → Option ValidatorMetrics
  current_epoch : Nat

/-- `PoSConsensus::select_validator`.  The StdRng draw
`StdRng::from_seed(seed).gen_range(0..total)` is a pure function of the seed
bytes and the bound; it is abstracted as the argument `gen_range`.  The seed
is the height's little-endian bytes zero-padded to 32 bytes. -/
def PoSConsensus.select_validator (gen_range : List Nat → Nat → Nat)
    (c : PoSConsensus) (block_height : Nat) : Except ConsensusError Validator :=
  match c.active_validators with
  | [] => .error .ValidatorError
  | v0 :: _ =>
    let seed := height_seed block_height
    let total := sum_stakes c.active_validators
    let selection_point := gen_range seed total
    .ok (pick_validator selection_point v0 c.active_validators 0)

/-- `ConsensusEngine::select_next_validator` (block-production path).  The
source computes `seed = height.to_le_bytes()` but then seeds the generator
with the constant `[0u8; 32]` (`StdRng::from_seed([0u8; 32])`), so the
selection point is drawn from the zero seed regardless of the height.  The
chain read that produces `height` is abstracted into the arguments. -/
def engine_select_next_validator (gen_range : List Nat → Nat → Nat)
    (active : List Validator) (height : Nat) : Except ConsensusError Validator :=
  match active with
  | [] => .error .ValidatorError
  | v0 :: _ =>
    let _seed := height_seed height
    let total := sum_stakes active
    let selection_point := gen_range zero_seed total
    .ok (pick_validator selection_point v0 active 0)

/-- `PoSConsensus::calculate_block_reward` (identical code in
`ConsensusEngine::calculate_block_reward`): 50 GENX in 8-decimal units,
halved by right shift every 210000 blocks, hard zero from 64 halvings on. -/
def calculate_block_reward (height : Nat) : Nat :=
  let initial_reward := 50 * 100000000
  let halving_interval := 210000
  let halvings := height / halving_interval
  if 64 ≤ halvings then 0 else initial_reward >>> halvings

/-!  Spec-side reference definitions (for refinement comparisons only). -/

/-- Modelled from the spec: the stake-weighted quorum rule of §4.5 / claim
C3 — a checkpoint finalizes exactly when the fraction of voting stake,
relative to the total stake of the active validator set, meets or exceeds
`finality_threshold`. -/
def spec_stake_quorum (stake_of : String → Nat) (active : List String)
    (votes : Finset String) (threshold : ℚ) : Prop :=
  threshold * (((active.map stake_of).sum : Nat) : ℚ) ≤ ((votes.sum stake_of : Nat) : ℚ)

/-- Lexicographic order on character-code sequences (the address ordering
used by the spec-side active-set definition). -/
def lex_lt : List Nat → List Nat → Bool
  | [], [] => false
  | [], _ :: _ => true
  | _ :: _, [] => false
  | a :: as, b :: bs => if a < b then true else if b < a then false else lex_lt as bs

/-- Character-code key of a string. -/
def str_key (s : String) : List Nat := s.data.map Char.toNat

/-- Modelled from the spec: insertion step for the active-set ordering of
§4.1 — descending stake with equal-stake ties broken by ascending address. -/
def spec_insert_desc (v : Validator) : List Validator → List Validator
  | [] => [v]
  | w :: ws =>
    if w.stake < v.stake ∨ (w.stake = v.stake ∧ lex_lt (str_key v.address) (str_key w.address)) then
      v :: w :: ws
    else w :: spec_insert_desc v ws

/-- Modelled from the spec: sort by descending stake, ties by address. -/
def spec_sort : List Validator → List Validator
  | [] => []
  | v :: vs => spec_insert_desc v (spec_sort vs)

/-- Modelled from the spec: the active set of §4.1 — validators with stake
at or above `min_stake`, sorted by descending stake with ties broken by
address ordering, truncated to the top `max_validators`. -/
def spec_active_set (m : ValidatorManager) : List Validator :=
  ((spec_sort m.validators).filter (fun v => m.min_stake ≤ v.stake)).take m.max_validators

/-!  Concrete fixtures used by counterexamples and witnesses. -/

/-- Trivial hash environment: every hash is 0.  The claims exercised on
concrete inputs do not depend on the hash values. -/
def env0 : HashEnv := ⟨fun _ => 0, fun _ => 0, fun _ => 0⟩

/-- Transaction literal with zero id (consistent with `env0`). -/
def mkTx (sender recipient : String) (amount fee : Nat) : Transaction :=
  { id := 0, timestamp := 0, sender := sender, recipient := recipient
    amount := amount, fee := fee, data := none, signature := none }

/-- Ledger holding 100 units for account `A`. -/
def state0 : State :=
  { State.new with balances := upd (fun _ => 0) "A" 100, total_supply := 100 }

/-- Chain at genesis height 0 over `state0`. -/
def chain0 : Blockchain :=
  { blocks := fun _ => none, state := state0, latest_hash := 0, latest_height := 0 }

/-- Block whose first transaction is valid (`A` pays `B` 10) and whose second
fails the balance check (`C` has balance 0 and pays 5). -/
def blockBad : Block :=
  { header := { version := 1, height := 1, timestamp := 0, prev_hash := 0
                merkle_root := 0, validator := "V", signature := none }
    transactions := [mkTx "A" "B" 10 0, mkTx "C" "D" 5 0] }

/-- Structurally valid empty block at height 1 on top of `chain0`. -/
def goodBlock1 : Block :=
  { header := { version := 1, height := 1, timestamp := 0, prev_hash := 0
                merkle_root := 0, validator := "V", signature := none }
    transactions := [] }

/-- A second, different block at height 1 referencing the same `prev_hash`. -/
def block1b : Block :=
  { header := { version := 1, height := 1, timestamp := 0, prev_hash := 0
                merkle_root := 0, validator := "W", signature := none }
    transactions := [] }

/-- Chain after accepting `goodBlock1` (tip height 1). -/
def chain1 : Blockchain := (Blockchain.add_block env0 chain0 goodBlock1).2

/-- Ledger holding 5 units for account `A` (overflow scenario). -/
def stateOv : State :=
  { State.new with balances := upd (fun _ => 0) "A" 5, total_supply := 5 }

/-- Transaction whose exact `amount + fee` is `2 ^ 64 + 1` but whose wrapped
64-bit sum is 1. -/
def txOv : Transaction := mkTx "A" "B" (2 ^ 64 - 1) 2

/-- Low-stake voting validators for the finality fixtures. -/
def valV1 : Validator := ⟨"v1", 1, 0⟩

/-- Second low-stake voter. -/
def valV2 : Validator := ⟨"v2", 1, 0⟩

/-- Fresh finality manager over the default parameters
(`checkpoint_interval = 100`, `finality_threshold = 0.67`). -/
def fm0 : FinalityManager := FinalityManager.new ConsensusParams.default

/-- Finality manager after a first vote at height 100 binding hash 7. -/
def fm1 : FinalityManager := (fm0.add_checkpoint_vote 100 7 valV1).2

/-- The pending checkpoint stored in `fm1`. -/
def cpV1 : Checkpoint := ⟨100, 7, {"v1"}, false⟩

/-- Finality manager after the second vote (checkpoint finalized). -/
def fm2 : FinalityManager := (fm1.add_checkpoint_vote 100 7 valV2).2

/-- The finalized checkpoint stored in `fm2`. -/
def cpFin : Checkpoint := ⟨100, 7, insert "v2" {"v1"}, true⟩

/-- Stake map for the quorum counterexample: voters `v1`, `v2` hold 1 unit
each while `w` holds 998 of the 1000 total active stake. -/
def stake_of_c3 : String → Nat :=
  fun a => if a = "w" then 998 else if a = "v1" then 1 else if a = "v2" then 1 else 0

/-- Active-set snapshot for the quorum counterexample. -/
def active_c3 : List String := ["v1", "v2", "w"]

/-- Two equal-stake validators registered in non-alphabetical order. -/
def valB10 : Validator := ⟨"B", 10, 0⟩

/-- Equal-stake validator with the alphabetically smaller address. -/
def valA10 : Validator := ⟨"A", 10, 0⟩

/-- Manager holding `B` before `A`, both with stake 10. -/
def mgrBA : ValidatorManager := ⟨[valB10, valA10], 1, 10⟩

/-- PoS state used by the determinism witness. -/
def posC1 : PoSConsensus :=
  { params := ConsensusParams.default
    active_validators := [⟨"X", 100, 0⟩, ⟨"Y", 300, 0⟩]
    validator_metrics := fun _ => none
    current_epoch := 0 }

/-- PoS state with the same active set as `posC1` but different parameters,
metrics, and epoch. -/
def posC2 : PoSConsensus :=
  { params := { ConsensusParams.default with block_time := 9, min_stake := 0 }
    active_validators := [⟨"X", 100, 0⟩, ⟨"Y", 300, 0⟩]
    validator_metrics := fun _ => some ⟨3, 1, 75 / 100, 12⟩
    current_epoch := 42 }

/-- Concrete generator function standing in for one fixed StdRng draw. -/
def g0 : List Nat → Nat → Nat := fun _ total => total / 3

/-!  Helper lemmas. -/

/-- Reading an updated map at the written key. -/
theorem upd_self {α β : Type} [DecidableEq α] (f : α → β) (k : α) (v : β) :
    upd f k v k = v := by
  simp [upd]

/-- Reading an updated map at any other key. -/
theorem upd_other {α β : Type} [DecidableEq α] (f : α → β) (k x : α) (v : β)
    (h : x ≠ k) : upd f k v x = f x := by
  simp [upd, h]

/-!  Claim theorems. -/

/-- C9: with halving interval 210000 and initial reward 5000000000 integer
units, the reward is 5000000000 on every height below 210000, 2500000000 at
height 210000, halves once per completed interval (integer division by a
power of two), and is exactly 0 whenever 64 or more halvings have elapsed. -/
theorem calculate_block_reward_halving :
    (∀ h : Nat, h < 210000 → calculate_block_reward h = 5000000000)
  ∧ calculate_block_reward 210000 = 2500000000
  ∧ (∀ h : Nat, h / 210000 < 64 → calculate_block_reward h = 5000000000 / 2 ^ (h / 210000))
  ∧ (∀ h : Nat, 64 ≤ h / 210000 → calculate_block_reward h = 0) := by
  refine ⟨?_, by decide, ?_, ?_⟩
  · intro h hh
    have h0 : h / 210000 = 0 := Nat.div_eq_of_lt hh
    simp [calculate_block_reward, h0]
  · intro h hh
    have hlt : ¬ 64 ≤ h / 210000 := by omega
    simp [calculate_block_reward, hlt, Nat.shiftRight_eq_div_pow]
  · intro h hh
    simp [calculate_block_reward, hh]

/-- Witness for C9: concrete heights for each guarded conjunct. -/
theorem calculate_block_reward_halving_witness :
    calculate_block_reward 209999 = 5000000000
  ∧ calculate_block_reward 420000 = 5000000000 / 2 ^ (420000 / 210000)
  ∧ calculate_block_reward 13440000 = 0 :=
  ⟨calculate_block_reward_halving.1 209999 (by decide),
   calculate_block_reward_halving.2.2.1 420000 (by decide),
   calculate_block_reward_halving.2.2.2 13440000 (by decide)⟩

/-- C2: leader election is a pure function of the block height and the
active-set snapshot: for any fixed (deterministic) generator, two PoS states
agreeing on the active set — regardless of parameters, metrics, or epoch —
select the same validator at the same height, so two calls with the same
`(height, active_set)` always return the same result. -/
theorem select_validator_deterministic (g : List Nat → Nat → Nat)
    (c1 c2 : PoSConsensus) (h : Nat)
    (hact : c1.active_validators = c2.active_validators) :
    PoSConsensus.select_validator g c1 h = PoSConsensus.select_validator g c2 h := by
  unfold PoSConsensus.select_validator
  rw [hact]

/-- Witness for C2: two states with equal active sets but different
parameters, metrics and epoch elect identically at height 11. -/
theorem select_validator_deterministic_witness :
    posC1.active_validators = posC2.active_validators
  ∧ PoSConsensus.select_validator g0 posC1 11 = PoSConsensus.select_validator g0 posC2 11 :=
  ⟨rfl, select_validator_deterministic g0 posC1 posC2 11 rfl⟩

/-- C6 evaluated on the code: the block-production election path
(`ConsensusEngine::select_next_validator`) seeds its generator with the
constant `[0u8; 32]`, so its outcome is independent of the height — any two
heights give the same elected validator for the same active set — while the
height-derived seed that the claim requires does distinguish heights
(e.g. heights 5 and 6). -/
theorem engine_select_ignores_height :
    (∀ (g : List Nat → Nat → Nat) (active : List Validator) (h1 h2 : Nat),
      engine_select_next_validator g active h1 = engine_select_next_validator g active h2)
  ∧ height_seed 5 ≠ height_seed 6 := by
  refine ⟨?_, by decide⟩
  intro g active h1 h2
  cases active <;> rfl

/-- C10: the balance guard compares against `amount + fee` wrapped to 64
bits: a sender holding 5 units passes the check for a transaction whose
exact `amount + fee` is `2 ^ 64 + 1` (wrapped sum 1), and the transaction is
applied with the wrapped deduction — success does not imply
`balance ≥ amount + fee` over the integers. -/
theorem apply_transaction_wrapped_guard :
    (stateOv.apply_transaction txOv).map (fun s1 => s1.get_balance "A") = .ok 4
  ∧ stateOv.get_balance "A" < txOv.amount + txOv.fee
  ∧ (txOv.amount + txOv.fee) % U64 = 1 :=
  ⟨rfl, by decide, by decide⟩

/-- C1 evaluated on the code at the failing input: `add_block` on a block
whose second transaction lacks balance returns an error, yet the ledger
keeps the first transaction's mutation — `A` dropped from 100 to 90 and `B`
gained 10 — so block application is not atomic. -/
theorem add_block_not_atomic :
    (Blockchain.add_block env0 chain0 blockBad).1 = .error .InvalidTransaction
  ∧ chain0.state.get_balance "A" = 100
  ∧ (Blockchain.add_block env0 chain0 blockBad).2.state.get_balance "A" = 90
  ∧ (Blockchain.add_block env0 chain0 blockBad).2.state.get_balance "B" = 10 :=
  ⟨rfl, rfl, rfl, rfl⟩

/-- C4: for every chain and structurally valid block, a height that is not
`tip + 1` or a `prev_hash` differing from the tip hash makes `add_block`
fail with `InvalidBlock` and return the chain (blocks, ledger state and tip
pointer) completely unchanged. -/
theorem add_block_continuity (env : HashEnv) (c : Blockchain) (b : Block)
    (hval : b.validate env = .ok ())
    (hmis : b.header.height ≠ c.latest_height + 1 ∨ b.header.prev_hash ≠ c.latest_hash) :
    Blockchain.add_block env c b = (.error .InvalidBlock, c) := by
  unfold Blockchain.add_block
  rw [hval]
  rcases hmis with hh | hp
  · simp [hh]
  · rcases eq_or_ne b.header.height (c.latest_height + 1) with h2 | h2
    · simp [h2, hp]
    · simp [h2]

/-- Witness for C4, realizing the spec's scenario: after the empty block at
height 1 is accepted, a second, different, structurally valid block at
height 1 referencing the same `prev_hash` is rejected with `InvalidBlock`
and the chain is unchanged. -/
theorem add_block_continuity_witness :
    Block.validate env0 block1b = .ok ()
  ∧ block1b.header.height ≠ chain1.latest_height + 1
  ∧ Blockchain.add_block env0 chain1 block1b = (.error .InvalidBlock, chain1) :=
  ⟨rfl, by decide, add_block_continuity env0 chain1 block1b rfl (Or.inl (by decide))⟩

/-- C7: if a checkpoint at a valid height is already bound to hash A, a vote
for a different hash B errors with the conflict error and leaves the
manager — bound hash, vote set, everything — unchanged, so the equivocating
voter is not recorded. -/
theorem add_checkpoint_vote_equivocation (fm : FinalityManager) (h : Nat)
    (hashA hashB : Hash) (v : Validator) (cp : Checkpoint)
    (hint : h % fm.params.checkpoint_interval = 0)
    (hcp : fm.checkpoints h = some cp)
    (hA : cp.block_hash = hashA)
    (hne : hashB ≠ hashA) :
    fm.add_checkpoint_vote h hashB v = (.error .StateError, fm) := by
  simp [FinalityManager.add_checkpoint_vote, hint, hcp, hA, Ne.symm hne]

/-- Witness for C7: after a first vote at height 100 binds hash 7, a second
vote for hash 9 fails and the manager still holds the checkpoint bound to 7
with only the first voter. -/
theorem add_checkpoint_vote_equivocation_witness :
    100 % fm1.params.checkpoint_interval = 0
  ∧ fm1.checkpoints 100 = some cpV1
  ∧ cpV1.block_hash = 7
  ∧ (9 : Hash) ≠ 7
  ∧ fm1.add_checkpoint_vote 100 9 valV2 = (.error .StateError, fm1) :=
  ⟨by decide, by decide, rfl, by decide,
   add_checkpoint_vote_equivocation fm1 100 7 9 valV2 cpV1 (by decide) (by decide) rfl
     (by decide)⟩

/-- C3 counterexample: with the default `finality_threshold` of 0.67 and an
active set of total stake 1000, two voters holding 1 unit each (voting-stake
fraction 2/1000) finalize the checkpoint, so finalization is not the
stake-fraction rule of the claim. -/
theorem checkpoint_quorum_ignores_stake :
    (fm1.add_checkpoint_vote 100 7 valV2).1 = .ok true
  ∧ fm2.checkpoints 100 = some cpFin
  ∧ cpFin.finalized = true
  ∧ ¬ spec_stake_quorum stake_of_c3 active_c3 cpFin.votes fm1.params.finality_threshold := by
  refine ⟨rfl, by decide, rfl, ?_⟩
  have h1 : (active_c3.map stake_of_c3).sum = 1000 := by decide
  have h2 : cpFin.votes.sum stake_of_c3 = 2 := by decide
  have hθ : fm1.params.finality_threshold = 67 / 100 := rfl
  simp only [spec_stake_quorum, h1, h2, hθ]
  norm_num

/-- C3 amended: a vote on a pending checkpoint (valid height, matching bound
hash) finalizes it exactly when the number of distinct voters after the vote
reaches the fixed constant 2 — the voters' stakes and `finality_threshold`
play no role. -/
theorem add_checkpoint_vote_vote_count_quorum (fm : FinalityManager) (h : Nat)
    (bh : Hash) (v : Validator) (cp : Checkpoint)
    (hint : h % fm.params.checkpoint_interval = 0)
    (hcp : fm.checkpoints h = some cp)
    (hbh : cp.block_hash = bh)
    (hnf : cp.finalized = false) :
    ((fm.add_checkpoint_vote h bh v).1 = .ok true ↔ 2 ≤ (insert v.address cp.votes).card)
  ∧ (∃ cp1, (fm.add_checkpoint_vote h bh v).2.checkpoints h = some cp1
      ∧ cp1.votes = insert v.address cp.votes
      ∧ (cp1.finalized = true ↔ 2 ≤ (insert v.address cp.votes).card)) := by
  have step : fm.add_checkpoint_vote h bh v =
      ({ fm with checkpoints := upd fm.checkpoints h (some { cp with votes := insert v.address cp.votes }) } : FinalityManager).try_finalize h := by
    simp [FinalityManager.add_checkpoint_vote, hint, hcp, hbh]
  rw [step]
  by_cases hc : 2 ≤ (insert v.address cp.votes).card
  · refine ⟨by simp [FinalityManager.try_finalize, upd_self, hnf, hc], ?_⟩
    refine ⟨{ cp with votes := insert v.address cp.votes, finalized := true }, ?_, rfl, by simp [hc]⟩
    simp [FinalityManager.try_finalize, upd_self, hnf, hc]
  · refine ⟨by simp [FinalityManager.try_finalize, upd_self, hnf, hc], ?_⟩
    refine ⟨{ cp with votes := insert v.address cp.votes }, ?_, rfl, by simp [hnf, hc]⟩
    simp [FinalityManager.try_finalize, upd_self, hnf, hc]

/-- Witness for the amended C3: the second vote at height 100 finalizes the
checkpoint exactly because the voter count reaches 2. -/
theorem add_checkpoint_vote_vote_count_quorum_witness :
    ((fm1.add_checkpoint_vote 100 7 valV2).1 = .ok true
      ↔ 2 ≤ (insert valV2.address cpV1.votes).card)
  ∧ (∃ cp1, (fm1.add_checkpoint_vote 100 7 valV2).2.checkpoints 100 = some cp1
      ∧ cp1.votes = insert valV2.address cpV1.votes
      ∧ (cp1.finalized = true ↔ 2 ≤ (insert valV2.address cpV1.votes).card)) :=
  add_checkpoint_vote_vote_count_quorum fm1 100 7 valV2 cpV1 (by decide) (by decide) rfl rfl

/-- Finalization attempts never lower the latest finalized height. -/
theorem try_finalize_latest_le (fm : FinalityManager) (h : Nat) :
    fm.latest_finalized_height ≤ (fm.try_finalize h).2.latest_finalized_height := by
  rcases hc : fm.checkpoints h with _ | cp
  · simp [FinalityManager.try_finalize, hc]
  · by_cases hf : cp.finalized = true
    · simp [FinalityManager.try_finalize, hc, hf]
    · by_cases hcard : 2 ≤ cp.votes.card
      · simp only [FinalityManager.try_finalize, hc, hf, hcard, if_true, if_false,
          Bool.false_eq_true, ite_true, ite_false]
        split <;> omega
      · simp [FinalityManager.try_finalize, hc, hf, hcard]

/-- Finalization attempts never clear the finalized flag of any stored
checkpoint. -/
theorem try_finalize_preserves_finalized (fm : FinalityManager) (h h1 : Nat)
    (cp1 : Checkpoint) (hcp : fm.checkpoints h1 = some cp1)
    (hfin : cp1.finalized = true) :
    ∃ cp2, (fm.try_finalize h).2.checkpoints h1 = some cp2 ∧ cp2.finalized = true := by
  rcases hc : fm.checkpoints h with _ | cp
  · exact ⟨cp1, by simp [FinalityManager.try_finalize, hc, hcp], hfin⟩
  · by_cases hf : cp.finalized = true
    · exact ⟨cp1, by simp [FinalityManager.try_finalize, hc, hf, hcp], hfin⟩
    · by_cases hcard : 2 ≤ cp.votes.card
      · by_cases hh : h1 = h
        · subst hh
          refine ⟨{ cp with finalized := true }, ?_, rfl⟩
          simp [FinalityManager.try_finalize, hc, hf, hcard, upd]
        · refine ⟨cp1, ?_, hfin⟩
          simp [FinalityManager.try_finalize, hc, hf, hcard, upd, hh, hcp]
      · exact ⟨cp1, by simp [FinalityManager.try_finalize, hc, hf, hcard, hcp], hfin⟩

/-- C5 counterexample: `fm2` holds a finalized checkpoint at height 100;
`create_checkpoint(100, _)` overwrites it with a fresh pending checkpoint,
so the finalized flag reverts from true to false. -/
theorem create_checkpoint_resets_finalized :
    (fm2.checkpoints 100).map Checkpoint.finalized = some true
  ∧ ((fm2.create_checkpoint 100 7).2.checkpoints 100).map Checkpoint.finalized = some false :=
  ⟨rfl, rfl⟩

/-- C5 amended: the latest finalized height never decreases under
`add_checkpoint_vote` and is untouched by `create_checkpoint`, so
`is_finalized` is monotone under both; and `add_checkpoint_vote` never
clears a stored checkpoint's finalized flag.  (Excluded by the
counterexample: `create_checkpoint` overwrites an existing checkpoint,
resetting its flag, and re-initialization resets the latest finalized
height.) -/
theorem finality_monotone (fm : FinalityManager) (h H : Nat) (bh : Hash) (v : Validator) :
    fm.latest_finalized_height ≤ (fm.add_checkpoint_vote h bh v).2.latest_finalized_height
  ∧ (fm.create_checkpoint h bh).2.latest_finalized_height = fm.latest_finalized_height
  ∧ (fm.is_finalized H = true → (fm.add_checkpoint_vote h bh v).2.is_finalized H = true)
  ∧ (fm.is_finalized H = true → (fm.create_checkpoint h bh).2.is_finalized H = true)
  ∧ (∀ h1 cp1, fm.checkpoints h1 = some cp1 → cp1.finalized = true →
      ∃ cp2, (fm.add_checkpoint_vote h bh v).2.checkpoints h1 = some cp2 ∧ cp2.finalized = true) := by
  have hvote : fm.latest_finalized_height ≤ (fm.add_checkpoint_vote h bh v).2.latest_finalized_height
      ∧ (∀ h1 cp1, fm.checkpoints h1 = some cp1 → cp1.finalized = true →
          ∃ cp2, (fm.add_checkpoint_vote h bh v).2.checkpoints h1 = some cp2 ∧ cp2.finalized = true) := by
    by_cases hint : h % fm.params.checkpoint_interval = 0
    · rcases hc : fm.checkpoints h with _ | cp
      · have step : fm.add_checkpoint_vote h bh v =
            ({ fm with checkpoints := upd fm.checkpoints h (some ⟨h, bh, {v.address}, false⟩) } : FinalityManager).try_finalize h := by
          simp [FinalityManager.add_checkpoint_vote, hint, hc]
        rw [step]
        refine ⟨try_finalize_latest_le { fm with checkpoints := upd fm.checkpoints h (some ⟨h, bh, {v.address}, false⟩) } h, ?_⟩
        intro h1 cp1 hcp1 hfin
        have hne : h1 ≠ h := fun he => by rw [he, hc] at hcp1; cases hcp1
        exact try_finalize_preserves_finalized _ h h1 cp1 (by simpa [upd, hne] using hcp1) hfin
      · by_cases hbh2 : cp.block_hash = bh
        · have step : fm.add_checkpoint_vote h bh v =
              ({ fm with checkpoints := upd fm.checkpoints h (some { cp with votes := insert v.address cp.votes }) } : FinalityManager).try_finalize h := by
            simp [FinalityManager.add_checkpoint_vote, hint, hc, hbh2]
          rw [step]
          refine ⟨try_finalize_latest_le { fm with checkpoints := upd fm.checkpoints h (some { cp with votes := insert v.address cp.votes }) } h, ?_⟩
          intro h1 cp1 hcp1 hfin
          by_cases hh : h1 = h
          · subst hh
            have hcc : cp1 = cp := by rw [hc] at hcp1; exact (Option.some.inj hcp1).symm
            refine try_finalize_preserves_finalized _ h1 h1
              { cp with votes := insert v.address cp.votes } (by simp [upd]) ?_
            have hfc : cp.finalized = true := by rw [← hcc]; exact hfin
            simpa using hfc
          · exact try_finalize_preserves_finalized _ h h1 cp1 (by simpa [upd, hh] using hcp1) hfin
        · have step : fm.add_checkpoint_vote h bh v = (.error .StateError, fm) := by
            simp [FinalityManager.add_checkpoint_vote, hint, hc, hbh2]
          rw [step]
          exact ⟨le_refl _, fun h1 cp1 hcp1 hfin => ⟨cp1, hcp1, hfin⟩⟩
    · have step : fm.add_checkpoint_vote h bh v = (.error .StateError, fm) := by
        simp [FinalityManager.add_checkpoint_vote, hint]
      rw [step]
      exact ⟨le_refl _, fun h1 cp1 hcp1 hfin => ⟨cp1, hcp1, hfin⟩⟩
  have hcle : (fm.create_checkpoint h bh).2.latest_finalized_height = fm.latest_finalized_height := by
    by_cases hint : h % fm.params.checkpoint_interval = 0 <;>
      simp [FinalityManager.create_checkpoint, hint]
  refine ⟨hvote.1, hcle, ?_, ?_, hvote.2⟩
  · intro hH
    have hle := hvote.1
    simp only [FinalityManager.is_finalized, decide_eq_true_eq] at hH ⊢
    omega
  · intro hH
    simp only [FinalityManager.is_finalized, decide_eq_true_eq] at hH ⊢
    omega

/-- Witness for the amended C5: the finalized checkpoint of `fm2` stays
finalized, and height 100 stays `is_finalized`, across a further vote and a
`create_checkpoint` at another valid height. -/
theorem finality_monotone_witness :
    fm2.is_finalized 100 = true
  ∧ (fm2.add_checkpoint_vote 100 7 valV1).2.is_finalized 100 = true
  ∧ (fm2.create_checkpoint 100 7).2.is_finalized 100 = true
  ∧ (∃ cp2, (fm2.add_checkpoint_vote 100 7 valV1).2.checkpoints 100 = some cp2
      ∧ cp2.finalized = true) :=
  ⟨by decide,
   (finality_monotone fm2 100 100 7 valV1).2.2.1 (by decide),
   (finality_monotone fm2 100 100 7 valV1).2.2.2.1 (by decide),
   (finality_monotone fm2 100 100 7 valV1).2.2.2.2 100 cpFin (by decide) rfl⟩

/-- Membership through stable insertion. -/
theorem mem_insert_desc {v x : Validator} :
    ∀ {l : List Validator}, x ∈ insert_desc v l ↔ x = v ∨ x ∈ l := by
  intro l
  induction l with
  | nil => simp [insert_desc]
  | cons w ws ih =>
    by_cases hc : w.stake ≤ v.stake
    · simp [insert_desc, hc]
    · simp [insert_desc, hc, ih]
      tauto

/-- Stable insertion preserves descending-stake ordering. -/
theorem pairwise_insert_desc {v : Validator} {l : List Validator}
    (hl : l.Pairwise (fun a b => b.stake ≤ a.stake)) :
    (insert_desc v l).Pairwise (fun a b => b.stake ≤ a.stake) := by
  induction l with
  | nil => simp [insert_desc]
  | cons w ws ih =>
    rcases List.pairwise_cons.mp hl with ⟨hw, hws⟩
    by_cases hc : w.stake ≤ v.stake
    · have hins : insert_desc v (w :: ws) = v :: w :: ws := by simp [insert_desc, hc]
      rw [hins]
      refine List.pairwise_cons.mpr ⟨?_, hl⟩
      intro x hx
      rcases List.mem_cons.mp hx with rfl | hx2
      · exact hc
      · exact le_trans (hw x hx2) hc
    · have hvw : v.stake ≤ w.stake := le_of_not_le hc
      have : insert_desc v (w :: ws) = w :: insert_desc v ws := by simp [insert_desc, hc]
      rw [this]
      refine List.pairwise_cons.mpr ⟨?_, ih hws⟩
      intro x hx
      rcases mem_insert_desc.mp hx with rfl | hx2
      · exact hvw
      · exact hw x hx2

/-- Membership through the stable sort. -/
theorem mem_sort_by_stake_desc {x : Validator} :
    ∀ {l : List Validator}, x ∈ sort_by_stake_desc l ↔ x ∈ l := by
  intro l
  induction l with
  | nil => simp [sort_by_stake_desc]
  | cons v vs ih => simp [sort_by_stake_desc, mem_insert_desc, ih]

/-- The stable sort is descending in stake. -/
theorem pairwise_sort_by_stake_desc (l : List Validator) :
    (sort_by_stake_desc l).Pairwise (fun a b => b.stake ≤ a.stake) := by
  induction l with
  | nil => simp [sort_by_stake_desc]
  | cons v vs ih => exact pairwise_insert_desc ih

/-- Insertion adds one element to the length. -/
theorem length_insert_desc (v : Validator) :
    ∀ (l : List Validator), (insert_desc v l).length = l.length + 1
  | [] => rfl
  | w :: ws => by
    by_cases hc : w.stake ≤ v.stake <;>
      simp [insert_desc, hc, length_insert_desc v ws]

/-- The stable sort preserves length. -/
theorem length_sort_by_stake_desc (l : List Validator) :
    (sort_by_stake_desc l).length = l.length := by
  induction l with
  | nil => rfl
  | cons v vs ih => simp [sort_by_stake_desc, length_insert_desc, ih]

/-- C8 counterexample: two validators with equal stake 10 registered in the
order `B`, `A` come back in registration order `B`, `A` (Rust stable sort),
not in the address order `A`, `B` that the claim requires. -/
theorem get_active_validators_ties_not_by_address :
    mgrBA.get_active_validators = [valB10, valA10]
  ∧ spec_active_set mgrBA = [valA10, valB10]
  ∧ mgrBA.get_active_validators ≠ spec_active_set mgrBA := by
  refine ⟨by decide, by decide, by decide⟩

/-- C8 amended: the active set consists exactly of the validators with stake
at or above `min_stake`, sorted by descending stake and truncated to
`max_validators` — with equal-stake ties left in registration order by the
stable sort, not reordered by address. -/
theorem get_active_validators_spec_props (m : ValidatorManager) :
    (m.get_active_validators).Pairwise (fun a b => b.stake ≤ a.stake)
  ∧ (∀ v ∈ m.get_active_validators, m.min_stake ≤ v.stake)
  ∧ m.get_active_validators.length ≤ m.max_validators
  ∧ (∀ v ∈ m.get_active_validators, v ∈ m.validators)
  ∧ (∀ v ∈ m.validators, m.min_stake ≤ v.stake → m.validators.length ≤ m.max_validators →
      v ∈ m.get_active_validators) := by
  refine ⟨?_, ?_, ?_, ?_, ?_⟩
  · exact List.Pairwise.sublist (List.take_sublist _ _)
      ((pairwise_sort_by_stake_desc m.validators).filter _)
  · intro v hv
    have hvf := List.mem_of_mem_take hv
    have := List.mem_filter.mp hvf
    simpa using this.2
  · exact List.length_take_le _ _
  · intro v hv
    have hvf := List.mem_of_mem_take hv
    exact mem_sort_by_stake_desc.mp (List.mem_filter.mp hvf).1
  · intro v hv hstake hlen
    have hfl : ((sort_by_stake_desc m.validators).filter
        (fun v => m.min_stake ≤ v.stake)).length ≤ m.max_validators := by
      calc ((sort_by_stake_desc m.validators).filter (fun v => m.min_stake ≤ v.stake)).length
          ≤ (sort_by_stake_desc m.validators).length := List.length_filter_le _ _
        _ = m.validators.length := length_sort_by_stake_desc m.validators
        _ ≤ m.max_validators := hlen
    have htake := List.take_of_length_le hfl
    unfold ValidatorManager.get_active_validators
    rw [htake]
    refine List.mem_filter.mpr ⟨mem_sort_by_stake_desc.mpr hv, by simpa using hstake⟩

/-- Witness for the amended C8 on the concrete tie fixture. -/
theorem get_active_validators_spec_props_witness :
    mgrBA.min_stake ≤ valB10.stake
  ∧ valB10 ∈ mgrBA.validators
  ∧ valA10 ∈ mgrBA.get_active_validators :=
  ⟨(get_active_validators_spec_props mgrBA).2.1 valB10 (by decide),
   (get_active_validators_spec_props mgrBA).2.2.2.1 valB10 (by decide),
   (get_active_validators_spec_props mgrBA).2.2.2.2 valA10 (by decide) (by decide) (by decide)⟩

end Genx
